import Mathlib

/-!
# Verification of the Scrapbox → Markdown translation core

This file gives a shallow embedding, over `List Char`, of the translation
core of the repository (package `parser`: `extractTags`, `ConvertToMarkdown`,
`convertLineToMarkdown`, `convertSyntax`, `replaceEnclosed`,
`convertPageLinks`, `convertExternalLinks`), together with theorems about the
embedded definitions.

Strings are modelled as `List Char` (the inputs of interest are ASCII, so Go's
byte indexing coincides with character indexing).  Each helper below mirrors
the Go `strings` function used by the source, at the call sites where the
source uses it.  A Go runtime panic (out-of-range slice) is modelled by
`Option.none` propagating through the translation.
-/

/-- Go `strings.HasPrefix s p`. -/
def hasPrefixStr : List Char → List Char → Bool
  | _, [] => true
  | [], _ :: _ => false
  | c :: cs, p :: ps => c = p && hasPrefixStr cs ps

/-- Go `strings.HasSuffix s p`. -/
def hasSuffixStr (s p : List Char) : Bool :=
  hasPrefixStr s.reverse p.reverse

/-- The whitespace class used by Go `strings.TrimSpace` / `strings.Fields`
(`unicode.IsSpace`), restricted to the ASCII range: space, tab, newline,
vertical tab, form feed, carriage return. -/
def isSpaceChar (c : Char) : Bool :=
  c = ' ' || c = '\t' || c = '\n' || c = Char.ofNat 11 || c = Char.ofNat 12 || c = '\r'

/-- Go `strings.TrimLeft s cutset`: drop leading characters in `cutset`. -/
def trimLeftStr (cutset s : List Char) : List Char :=
  s.dropWhile (fun c => cutset.contains c)

/-- Go `strings.TrimSpace s`. -/
def trimSpaceStr (s : List Char) : List Char :=
  ((s.dropWhile isSpaceChar).reverse.dropWhile isSpaceChar).reverse

/-- Go `strings.TrimPrefix s p`. -/
def trimPrefixStr (s p : List Char) : List Char :=
  if hasPrefixStr s p then s.drop p.length else s

/-- Go `strings.TrimSuffix s p`. -/
def trimSuffixStr (s p : List Char) : List Char :=
  if hasSuffixStr s p then s.take (s.length - p.length) else s

/-- Go `strings.Index s pat`: index of the first occurrence of `pat` in `s`
(`none` models Go's `-1`). -/
def indexStr : List Char → List Char → Option Nat
  | [], pat => if pat = [] then some 0 else none
  | c :: cs, pat =>
    if hasPrefixStr (c :: cs) pat then some 0 else (indexStr cs pat).map (· + 1)

/-- Go `strings.Repeat s n`. -/
def repeatStr (s : List Char) : Nat → List Char
  | 0 => []
  | n + 1 => s ++ repeatStr s n

/-- Go `strings.Join xs sep`. -/
def joinStr (sep : List Char) : List (List Char) → List Char
  | [] => []
  | [x] => x
  | x :: y :: xs => x ++ sep ++ joinStr sep (y :: xs)

/-- Go `strings.Fields`, accumulator form: `acc` holds the reversed current
word. -/
def fieldsAux : List Char → List Char → List (List Char)
  | [], acc => if acc = [] then [] else [acc.reverse]
  | c :: cs, acc =>
    if isSpaceChar c then
      (if acc = [] then [] else [acc.reverse]) ++ fieldsAux cs []
    else
      fieldsAux cs (c :: acc)

/-- Go `strings.Fields s`: whitespace-separated words of `s`. -/
def fieldsStr (s : List Char) : List (List Char) :=
  fieldsAux s []

/-- Go `strings.ToLower` (ASCII). -/
def toLowerStr (s : List Char) : List Char :=
  s.map Char.toLower

/-- Go `strings.EqualFold a b` (ASCII simple fold). -/
def equalFold (a b : List Char) : Bool :=
  toLowerStr a = toLowerStr b

/-- Go `strings.ReplaceAll s " " "_"` (single-character pattern, so a map). -/
def replaceSpaceUnderscore (s : List Char) : List Char :=
  s.map (fun c => if c = ' ' then '_' else c)

/-- Go `strings.ReplaceAll content "\\\\" "\\"`: collapse each (leftmost,
non-overlapping) doubled backslash to a single backslash. -/
def collapseDoubleBackslash : List Char → List Char
  | '\\' :: '\\' :: rest => '\\' :: collapseDoubleBackslash rest
  | c :: rest => c :: collapseDoubleBackslash rest
  | [] => []

/-- Concatenation of the strings successively written to the
`strings.Builder`. -/
def concatAll : List (List Char) → List Char
  | [] => []
  | x :: xs => x ++ concatAll xs

/-!
## The data model

`models.Page`: only `Title`, `Lines` (each line's `Text`; the per-line
metadata fields `Created`/`Updated`/`UserID` are never read by the conversion
code) and `LinksLc` are consumed by the translator.
-/

structure Page where
  title : List Char
  lines : List (List Char)
  linksLc : List (List Char)

/-!
## The translator, from `parser.go`
-/

/-- `Parser.extractTags` (per page): for each line, split into whitespace
fields; a word starting with `#` whose remainder after stripping the `#` is
non-empty contributes that remainder, in scan order. -/
def extractTags (lines : List (List Char)) : List (List Char) :=
  lines.flatMap fun l =>
    (fieldsStr l).flatMap fun word =>
      if hasPrefixStr word ['#'] then
        let tag := trimPrefixStr word ['#']
        if tag ≠ [] then [tag] else []
      else []

/-- `Parser.convertExternalLinks`. -/
def convertExternalLinks (text : List Char) : List Char :=
  if hasPrefixStr text "http".toList &&
      (hasSuffixStr text ".jpg".toList || hasSuffixStr text ".png".toList ||
        hasSuffixStr text ".gif".toList || hasSuffixStr text ".jpeg".toList) then
    "![image](".toList ++ text ++ [')']
  else
    text

/-- `Parser.convertPageLinks`.  The source takes the index of the first `[`
of the line; if the text from there starts with one of the five reserved
style openers it returns the text unchanged (no later bracket is
considered). -/
def convertPageLinks (text : List Char) (links : List (List Char)) : List Char :=
  match indexStr text ['['] with
  | none => text
  | some startIdx =>
    let rest := text.drop startIdx
    if hasPrefixStr rest "[- ".toList || hasPrefixStr rest "[* ".toList ||
        hasPrefixStr rest "[$ ".toList || hasPrefixStr rest "[**".toList ||
        hasPrefixStr rest "[/ ".toList then
      text
    else
      match indexStr rest [']'] with
      | none => text
      | some e =>
        let endIdx := e + startIdx
        let linkText := (text.take endIdx).drop (startIdx + 1)
        let linkId := toLowerStr (replaceSpaceUnderscore linkText)
        match links.find? (fun link => equalFold link linkId) with
        | some link =>
          text.take startIdx ++ '[' :: linkText ++ "](./".toList ++ link ++
            ".md)".toList ++ text.drop (endIdx + 1)
        | none => text

/-- `Parser.replaceEnclosed`: replace the first `prefix … suffix` span by
`mdPrefix … mdSuffix`; in the math case (`"[$ "`) doubled backslashes in the
captured content are collapsed.  (At every call site the opener contains no
`]`, so the first `]` at or after the opener lies at or beyond its end.) -/
def replaceEnclosed (text pre suffix mdPrefix mdSuffix : List Char) : List Char :=
  match indexStr text pre with
  | none => text
  | some startIdx =>
    match indexStr (text.drop startIdx) suffix with
    | none => text
    | some e =>
      let endIdx := e + startIdx
      let content := (text.take endIdx).drop (startIdx + pre.length)
      let content :=
        if pre = "[$ ".toList then collapseDoubleBackslash content else content
      text.take startIdx ++ mdPrefix ++ content ++ mdSuffix ++ text.drop (endIdx + 1)

/-- `Parser.convertSyntax`.  In the heading branch the source slices
`text[:strings.Index(text, " ")]`; when the text contains no space the index
is `-1` and the Go program panics — modelled by `none`. -/
def convertSyntax (text : List Char) (links : List (List Char)) : Option (List Char) :=
  if hasPrefixStr text "[**".toList then
    match indexStr text [' '] with
    | none => none
    | some i =>
      let level := (text.take i).count '*'
      let heading := trimPrefixStr text ('[' :: List.replicate level '*' ++ [' '])
      let heading := trimSuffixStr heading [']']
      let mdLevel : Nat :=
        match level with
        | 2 => 4
        | 3 => 3
        | 4 => 2
        | _ => 4
      some (List.replicate mdLevel '#' ++ ' ' :: heading)
  else
    let t := replaceEnclosed text "[- ".toList [']'] "~~".toList "~~".toList
    let t := replaceEnclosed t "[* ".toList [']'] "**".toList "**".toList
    let t := replaceEnclosed t "[/ ".toList [']'] ['_'] ['_']
    let t := replaceEnclosed t "[$ ".toList [']'] ['$'] ['$']
    if hasPrefixStr t ['`'] && hasSuffixStr t ['`'] then
      some t
    else
      some (convertExternalLinks (convertPageLinks t links))

/-- `Parser.convertLineToMarkdown`. -/
def convertLineToMarkdown (line : List Char) (links : List (List Char)) :
    Option (List Char) :=
  if line = [] then some []
  else
    let indentLevel := (line.takeWhile fun c => c = ' ' || c = '\t').length
    let line := trimLeftStr [' ', '\t'] line
    match convertSyntax line links with
    | none => none
    | some l =>
      if indentLevel > 0 then
        some (repeatStr [' ', ' '] (indentLevel - 1) ++ '-' :: ' ' :: l)
      else
        some l

/-- The fenced code block written on leaving code-block state:
`fmt.Sprintf("```%s\n%s\n```\n", lang, strings.Join(content, "\n"))`. -/
def fenceBlock (lang : List Char) (content : List (List Char)) : List Char :=
  "```".toList ++ lang ++ '\n' :: joinStr ['\n'] content ++
    '\n' :: '`' :: '`' :: '`' :: ['\n']

/-- The line loop of `Parser.ConvertToMarkdown`, with the loop state
`(codeBlock, codeLanguage, codeContent)` made explicit.  The result is the
list of strings written to the builder after the title heading (so that both
the final string and the emission structure are available); `none` models a
panic inside `convertLineToMarkdown`. -/
def convertLoop (links : List (List Char)) :
    List (List Char) → Bool → List Char → List (List Char) →
    Option (List (List Char))
  | [], codeBlock, lang, content =>
    some (if codeBlock && content ≠ [] then [fenceBlock lang content] else [])
  | l :: ls, codeBlock, lang, content =>
    if hasPrefixStr (trimSpaceStr l) ['#'] then
      convertLoop links ls codeBlock lang content
    else if hasPrefixStr (trimSpaceStr l) "code:".toList then
      convertLoop links ls true (trimSpaceStr (trimPrefixStr l "code:".toList)) content
    else if codeBlock then
      if hasPrefixStr l [' '] || hasPrefixStr l ['\t'] then
        convertLoop links ls codeBlock lang (content ++ [trimLeftStr [' ', '\t'] l])
      else
        match convertLineToMarkdown l links with
        | none => none
        | some m =>
          (convertLoop links ls false [] []).map fun rest =>
            fenceBlock lang content :: (if m ≠ [] then [m ++ ['\n']] else []) ++ rest
    else
      match convertLineToMarkdown l links with
      | none => none
      | some m =>
        (convertLoop links ls codeBlock lang content).map fun rest =>
          (if m ≠ [] then [m ++ ['\n']] else []) ++ rest

/-- The body lines handed to the loop: the first line is skipped exactly when
its text equals the page title (`i == 0 && line.Text == page.Title`). -/
def bodyLines (page : Page) : List (List Char) :=
  match page.lines with
  | [] => []
  | l :: ls => if l = page.title then ls else l :: ls

/-- The builder writes of `ConvertToMarkdown` after the title heading. -/
def bodyChunks (page : Page) : Option (List (List Char)) :=
  convertLoop page.linksLc (bodyLines page) false [] []

/-- `Parser.ConvertToMarkdown`: `"# <title>\n\n"` followed by the body
writes. -/
def ConvertToMarkdown (page : Page) : Option (List Char) :=
  (bodyChunks page).map fun cs =>
    '#' :: ' ' :: page.title ++ '\n' :: '\n' :: concatAll cs

/-!
## Claim-side definitions

These definitions restate, in the spec's vocabulary, the bookkeeping that the
claims attribute to the translator; the theorems below compare them with the
source-derived definitions above.
-/

/-- Spec's tag extraction: over all whitespace-separated tokens of all lines
(in scan order), keep exactly the tokens of the form `#x…`, stripped of the
leading `#`. -/
def specTags (lines : List (List Char)) : List (List Char) :=
  lines.flatMap fun l =>
    (fieldsStr l).flatMap fun w =>
      match w with
      | '#' :: c :: cs => [c :: cs]
      | _ => []

/-- Spec: a tag line — trimmed text starts with `#`. -/
def tagLineB (l : List Char) : Bool :=
  hasPrefixStr (trimSpaceStr l) ['#']

/-- Spec: a code-block entry line — trimmed text starts with `code:`. -/
def codeLineB (l : List Char) : Bool :=
  hasPrefixStr (trimSpaceStr l) "code:".toList

/-- Spec: a line beginning with a space or a tab. -/
def wsLeadB (l : List Char) : Bool :=
  hasPrefixStr l [' '] || hasPrefixStr l ['\t']

/-- The output-line count predicted by the claim as stated (exactly three
drop/collapse cases): after the title dedup, tag lines count 0, each
contiguous code-block run counts 1 (charged at run entry), every other line
counts 1. -/
def claimCount3Aux : List (List Char) → Bool → Nat
  | [], _ => 0
  | l :: ls, inRun =>
    if tagLineB l then claimCount3Aux ls inRun
    else if codeLineB l then (if inRun then 0 else 1) + claimCount3Aux ls true
    else if inRun && wsLeadB l then claimCount3Aux ls true
    else 1 + claimCount3Aux ls false

/-- Claimed (three-case) body chunk count of a page. -/
def claimCount3 (page : Page) : Nat :=
  claimCount3Aux (bodyLines page) false

/-- A code-block run being accumulated: its language tag and buffered lines. -/
structure CodeRun where
  lang : List Char
  buf : List (List Char)

/-- The body chunk sequence predicted by the amended claim, organized around
an optional current code run: the title-dup first line is dropped before
entry; tag lines are dropped (even inside a run); a `code:` line (re)starts a
run keeping any buffered lines; inside a run a space/tab-led line is buffered
after stripping its leading whitespace; any other line closes the run
(emitting one fenced block) and is then emitted as a normal line; at end of
input an open run with a non-empty buffer emits its fenced block; empty lines
emit nothing. -/
def claimChunksAux (links : List (List Char)) :
    List (List Char) → Option CodeRun → Option (List (List Char))
  | [], none => some []
  | [], some r => some (if r.buf = [] then [] else [fenceBlock r.lang r.buf])
  | l :: ls, st =>
    if tagLineB l then claimChunksAux links ls st
    else if codeLineB l then
      claimChunksAux links ls
        (some ⟨trimSpaceStr (trimPrefixStr l "code:".toList),
          match st with
          | some r => r.buf
          | none => []⟩)
    else
      match st with
      | some r =>
        if wsLeadB l then
          claimChunksAux links ls (some ⟨r.lang, r.buf ++ [trimLeftStr [' ', '\t'] l]⟩)
        else do
          let e ← if l = [] then some ([] : List (List Char))
                  else (convertLineToMarkdown l links).map fun m => [m ++ ['\n']]
          let rest ← claimChunksAux links ls none
          pure (fenceBlock r.lang r.buf :: (e ++ rest))
      | none => do
        let e ← if l = [] then some ([] : List (List Char))
                else (convertLineToMarkdown l links).map fun m => [m ++ ['\n']]
        let rest ← claimChunksAux links ls none
        pure (e ++ rest)

/-- Claim-side body chunk sequence of a page (amended claim). -/
def claimChunks (page : Page) : Option (List (List Char)) :=
  claimChunksAux page.linksLc (bodyLines page) none

/-- The output chunk count predicted by the amended claim: as `claimCount3`
but empty lines count 0, a run's block is charged at run exit (so a run open
at end of input with an empty buffer contributes nothing), and the second
flag tracks whether the current run's buffer is non-empty. -/
def claimCount4Aux : List (List Char) → Bool → Bool → Nat
  | [], inRun, hasElem => if inRun && hasElem then 1 else 0
  | l :: ls, inRun, hasElem =>
    if tagLineB l then claimCount4Aux ls inRun hasElem
    else if codeLineB l then claimCount4Aux ls true hasElem
    else if inRun then
      if wsLeadB l then claimCount4Aux ls true true
      else 1 + (if l = [] then 0 else 1) + claimCount4Aux ls false false
    else (if l = [] then 0 else 1) + claimCount4Aux ls false hasElem

/-- Amended-claim body chunk count of a page. -/
def claimCount4 (page : Page) : Nat :=
  claimCount4Aux (bodyLines page) false false

/-- The link id of a bracketed span's text: lower-cased, spaces replaced by
underscores. -/
def linkNorm (mid : List Char) : List Char :=
  toLowerStr (replaceSpaceUnderscore mid)

/-- The apostrophe character (U+0027). -/
def apos : Char := Char.ofNat 39

/-!
## Sanity checks mirroring the repository's unit tests
-/

example : convertLineToMarkdown " Indented".toList [] = some "- Indented".toList := by decide
example : convertLineToMarkdown "  Double indented".toList [] =
    some "  - Double indented".toList := by decide
example : convertLineToMarkdown "[* Bold text]".toList [] =
    some "**Bold text**".toList := by decide
example : convertLineToMarkdown "[/ Italic text]".toList [] =
    some "_Italic text_".toList := by decide
example : convertLineToMarkdown "[** h4 text]".toList [] =
    some "#### h4 text".toList := by decide
example : convertLineToMarkdown "[*** h3 text]".toList [] =
    some "### h3 text".toList := by decide
example : convertLineToMarkdown "[**** h2 text]".toList [] =
    some "## h2 text".toList := by decide
example : convertLineToMarkdown "[Test Page]".toList ["test_page".toList] =
    some "[Test Page](./test_page.md)".toList := by decide
example : extractTags ["#tag1 text".toList, "text #tag2".toList] =
    ["tag1".toList, "tag2".toList] := by decide
example : convertSyntax "[**]".toList [] = none := by decide

/-!
## Helper lemmas about the Go string primitives
-/

lemma hasPrefixStr_nil_right (s : List Char) : hasPrefixStr s [] = true := by
  cases s <;> rfl

lemma hasPrefixStr_append_self (p t : List Char) : hasPrefixStr (p ++ t) p = true := by
  induction p with
  | nil => simp [hasPrefixStr_nil_right]
  | cons c cs ih => simp [hasPrefixStr, ih]

lemma indexStr_of_first {s P : List Char} {k : Nat}
    (hk : hasPrefixStr (s.drop k) P = true)
    (hbefore : ∀ j, j < k → hasPrefixStr (s.drop j) P = false) :
    indexStr s P = some k := by
  induction s generalizing k with
  | nil =>
    cases P with
    | nil =>
      have hk0 : k = 0 := by
        by_contra hne
        have h0 := hbefore 0 (Nat.pos_of_ne_zero hne)
        simp [hasPrefixStr_nil_right] at h0
      subst hk0
      rfl
    | cons p ps => simp [List.drop_nil, hasPrefixStr] at hk
  | cons c cs ih =>
    cases k with
    | zero =>
      simp only [List.drop_zero] at hk
      simp [indexStr, hk]
    | succ k' =>
      have h0 := hbefore 0 (Nat.succ_pos _)
      simp only [List.drop_zero] at h0
      have ihr := @ih k' (by simpa using hk)
        (fun j hj => by simpa using hbefore (j + 1) (by omega))
      simp [indexStr, h0, ihr]

lemma indexStr_single_notMem {c : Char} {xs ys : List Char} (h : c ∉ xs) :
    indexStr (xs ++ c :: ys) [c] = some xs.length := by
  apply indexStr_of_first
  · rw [List.drop_left]
    simp [hasPrefixStr, hasPrefixStr_nil_right]
  · intro j hj
    have hdrop : (xs ++ c :: ys).drop j = xs.drop j ++ c :: ys :=
      List.drop_append_of_le_length (le_of_lt hj)
    rw [hdrop]
    cases hd : xs.drop j with
    | nil =>
      have : (xs.drop j).length = xs.length - j := List.length_drop j xs
      rw [hd] at this
      simp at this
      omega
    | cons a as =>
      have ha : a ∈ xs := by
        have : a ∈ xs.drop j := by rw [hd]; exact List.mem_cons_self a as
        exact List.drop_subset j xs this
      have hac : ¬(a = c) := fun e => h (e ▸ ha)
      simp [hasPrefixStr, hac]

lemma trimPrefixStr_append (p t : List Char) : trimPrefixStr (p ++ t) p = t := by
  simp [trimPrefixStr, hasPrefixStr_append_self, List.drop_left]

lemma trimSuffixStr_concat (t : List Char) (c : Char) :
    trimSuffixStr (t ++ [c]) [c] = t := by
  have h : hasSuffixStr (t ++ [c]) [c] = true := by
    simp [hasSuffixStr, List.reverse_append, hasPrefixStr, hasPrefixStr_nil_right]
  simp only [trimSuffixStr, h, if_pos, List.length_append, List.length_cons,
    List.length_nil]
  have : t.length + (0 + 1) - 1 = t.length := by omega
  rw [this, List.take_left]

/-!
## C1: totality of the translator
-/

/-- C1: the claim says translation completes without error or panic on every
document; in fact the heading branch of `convertSyntax` slices up to
`strings.Index(text, " ")` without checking for `-1`, so any line starting
with `[**` that contains no space makes the Go program panic (modelled by
`none`).  Evaluation of the model at the failing input `"[**]"`. -/
theorem C1_heading_panic :
    convertSyntax "[**]".toList [] = none ∧
    ConvertToMarkdown ⟨"T".toList, ["[**]".toList], []⟩ = none ∧
    convertPageLinks "[Unclosed".toList ["unclosed".toList] = "[Unclosed".toList := by
  refine ⟨by decide, by decide, by decide⟩

/-!
## C8: tag extraction
-/

/-- C8: `extractTags` returns exactly the whitespace-split tokens starting
with `#` and non-empty after the `#`, with the `#` stripped, in scan order,
duplicates retained; `["#a #b", "text #a"]` yields `["a", "b", "a"]` and
input without qualifying tokens yields `[]`. -/
theorem C8_extract_tags :
    (∀ lines : List (List Char), extractTags lines = specTags lines) ∧
    extractTags ["#a #b".toList, "text #a".toList] =
      ["a".toList, "b".toList, "a".toList] ∧
    extractTags ["no #".toList, "plain text".toList] = [] := by
  refine ⟨?_, by decide, by decide⟩
  intro lines
  unfold extractTags specTags
  have hword : ∀ w : List Char,
      (if hasPrefixStr w ['#'] then
        let tag := trimPrefixStr w ['#']
        if tag ≠ [] then [tag] else []
      else []) =
      (match w with
      | '#' :: c :: cs => [c :: cs]
      | _ => ([] : List (List Char))) := by
    intro w
    match w with
    | [] => simp [hasPrefixStr]
    | c :: cs =>
      by_cases hc : c = '#'
      · subst hc
        match cs with
        | [] => simp [hasPrefixStr, trimPrefixStr]
        | c2 :: cs2 => simp [hasPrefixStr, trimPrefixStr, hasPrefixStr_nil_right]
      · simp [hasPrefixStr, hc]
  simp only [hword]

/-!
## C6: heading conversion
-/

/-- C6: for a whitespace-stripped line of heading shape
`[` + L asterisks + space + text + `]` (L ≥ 2), the asterisk count L maps to
`####`/`###`/`##`/`####` for L = 2/3/4/other, the opener and the trailing `]`
are stripped, and the rest of the line — whatever it contains — is emitted
verbatim after the hashes (no further inline processing). -/
theorem C6_heading_levels (L : Nat) (rest : List Char) (links : List (List Char))
    (hL : 2 ≤ L) :
    convertSyntax ('[' :: (List.replicate L '*' ++ ' ' :: (rest ++ [']']))) links =
      some (List.replicate
        (if L = 2 then 4 else if L = 3 then 3 else if L = 4 then 2 else 4) '#' ++
        ' ' :: rest) := by
  obtain ⟨n, rfl⟩ : ∃ n, L = n + 2 := ⟨L - 2, by omega⟩
  set text := '[' :: (List.replicate (n + 2) '*' ++ ' ' :: (rest ++ [']'])) with htext
  have hrepl : List.replicate (n + 2) '*' = '*' :: '*' :: List.replicate n '*' := by
    simp [List.replicate_succ]
  have hpre : hasPrefixStr text "[**".toList = true := by
    show hasPrefixStr text ['[', '*', '*'] = true
    rw [htext, hrepl]
    simp [hasPrefixStr, hasPrefixStr_nil_right]
  have hform : text = ('[' :: List.replicate (n + 2) '*') ++ ' ' :: (rest ++ [']']) := by
    simp [htext]
  have hsp : ' ' ∉ '[' :: List.replicate (n + 2) '*' := by
    intro hmem
    rcases List.mem_cons.mp hmem with h | h
    · exact absurd h.symm (by decide)
    · exact absurd (List.eq_of_mem_replicate h) (by decide)
  have hidx : indexStr text [' '] = some (n + 3) := by
    rw [hform]
    have := @indexStr_single_notMem ' ' ('[' :: List.replicate (n + 2) '*') (rest ++ [']']) hsp
    simpa using this
  have hcount : ((text.take (n + 3)).count '*') = n + 2 := by
    have hlen : ('[' :: List.replicate (n + 2) '*').length = n + 3 := by simp
    rw [hform, ← hlen, List.take_left]
    simp [List.count_cons]
  have hstrip : trimPrefixStr text ('[' :: List.replicate (n + 2) '*' ++ [' ']) =
      rest ++ [']'] := by
    have : text = ('[' :: List.replicate (n + 2) '*' ++ [' ']) ++ (rest ++ [']']) := by
      simp [htext]
    rw [this, trimPrefixStr_append]
  rw [convertSyntax]
  rw [if_pos hpre, hidx]
  simp only [hcount, hstrip, trimSuffixStr_concat]
  congr 1
  congr 1
  congr 1
  rcases n with _ | _ | _ | m <;> simp

/-- Witness for C6 at L = 3. -/
theorem C6_heading_levels_witness :
    convertSyntax ('[' :: (List.replicate 3 '*' ++ ' ' :: ("x".toList ++ [']']))) [] =
      some (List.replicate
        (if 3 = 2 then 4 else if 3 = 3 then 3 else if 3 = 4 then 2 else 4) '#' ++
        ' ' :: "x".toList) :=
  C6_heading_levels 3 "x".toList [] (by decide)

/-!
## C9 / C10: indentation mapping
-/

lemma takeWhile_append_sat {p : Char → Bool} {xs ys : List Char}
    (h1 : ∀ x ∈ xs, p x = true) (h2 : ∀ c, ys.head? = some c → p c = false) :
    (xs ++ ys).takeWhile p = xs ∧ (xs ++ ys).dropWhile p = ys := by
  induction xs with
  | nil =>
    simp only [List.nil_append]
    cases ys with
    | nil => simp
    | cons c cs => simp [List.takeWhile_cons, List.dropWhile_cons, h2 c rfl]
  | cons x xs ih =>
    have hx := h1 x (List.mem_cons_self x xs)
    have ihh := ih (fun y hy => h1 y (List.mem_cons_of_mem x hy))
    simp [List.takeWhile_cons, List.dropWhile_cons, hx, ihh.1, ihh.2]

lemma convertSyntax_nil (links : List (List Char)) : convertSyntax [] links = some [] := rfl

/-- Evaluation of `convertLineToMarkdown` on a line that splits as
whitespace prefix `ind` (possibly empty) followed by `rest` not led by
space/tab. -/
lemma convertLine_split {ind rest : List Char} (links : List (List Char))
    (hws : ∀ c ∈ ind, c = ' ' ∨ c = '\t')
    (h1 : rest.head? ≠ some ' ') (h2 : rest.head? ≠ some '\t')
    (hne : ind ++ rest ≠ []) :
    convertLineToMarkdown (ind ++ rest) links =
      (convertSyntax rest links).map fun t =>
        if ind.length > 0 then
          repeatStr [' ', ' '] (ind.length - 1) ++ '-' :: ' ' :: t
        else t := by
  have hsat : ∀ x ∈ ind, ((x = ' ' || x = '\t') : Bool) = true := by
    intro x hx
    rcases hws x hx with h | h <;> simp [h]
  have hhead : ∀ c, rest.head? = some c → ((c = ' ' || c = '\t') : Bool) = false := by
    intro c hc
    have hc1 : ¬(c = ' ') := fun e => h1 (by rw [hc, e])
    have hc2 : ¬(c = '\t') := fun e => h2 (by rw [hc, e])
    simp [hc1, hc2]
  have htake := (takeWhile_append_sat (p := fun c => (c = ' ' || c = '\t' : Bool)) hsat hhead).1
  have hsat2 : ∀ x ∈ ind, (([' ', '\t'] : List Char).contains x) = true := by
    intro x hx
    rcases hws x hx with h | h <;> simp [h, List.contains]
  have hhead2 : ∀ c, rest.head? = some c → (([' ', '\t'] : List Char).contains c) = false := by
    intro c hc
    have hc1 : ¬(c = ' ') := fun e => h1 (by rw [hc, e])
    have hc2 : ¬(c = '\t') := fun e => h2 (by rw [hc, e])
    simp [hc1, hc2, List.contains]
  have hdrop := (takeWhile_append_sat (p := fun c => ([' ', '\t'] : List Char).contains c)
    hsat2 hhead2).2
  unfold convertLineToMarkdown trimLeftStr
  rw [if_neg hne]
  simp only [htake, hdrop]
  cases hcs : convertSyntax rest links with
  | none => simp
  | some t =>
    by_cases hp : ind.length > 0 <;> simp [hp]

/-- C9: a normal line with N > 0 leading space/tab characters converts to
`(N-1)` two-space pairs, then `- `, then the converted stripped text; a line
with no leading whitespace gets no bullet prefix. -/
theorem C9_indentation :
    (∀ (ind rest : List Char) (links : List (List Char)),
        ind ≠ [] →
        (∀ c ∈ ind, c = ' ' ∨ c = '\t') →
        rest.head? ≠ some ' ' → rest.head? ≠ some '\t' →
        convertLineToMarkdown (ind ++ rest) links =
          (convertSyntax rest links).map fun t =>
            repeatStr [' ', ' '] (ind.length - 1) ++ '-' :: ' ' :: t) ∧
    (∀ (rest : List Char) (links : List (List Char)),
        rest ≠ [] →
        rest.head? ≠ some ' ' → rest.head? ≠ some '\t' →
        convertLineToMarkdown rest links = convertSyntax rest links) := by
  constructor
  · intro ind rest links hne hws h1 h2
    have h := convertLine_split links hws h1 h2 (by simp [hne])
    have hlen : ind.length > 0 := List.length_pos.mpr hne
    rw [h]
    cases convertSyntax rest links <;> simp [hlen]
  · intro rest links hne h1 h2
    have h := @convertLine_split [] rest links (by simp) h1 h2 (by simpa using hne)
    simpa using h

/-- Witness for C9 at a one-space and a no-indent line. -/
theorem C9_indentation_witness :
    convertLineToMarkdown ([' '] ++ "Indented".toList) [] =
      (convertSyntax "Indented".toList []).map (fun t =>
        repeatStr [' ', ' '] (([' '] : List Char).length - 1) ++ '-' :: ' ' :: t) ∧
    convertLineToMarkdown "Hello".toList [] = convertSyntax "Hello".toList [] :=
  ⟨C9_indentation.1 [' '] "Indented".toList [] (by decide) (by decide) (by decide)
      (by decide),
    C9_indentation.2 "Hello".toList [] (by decide) (by decide) (by decide)⟩

lemma convertLine_allWS {ws : List Char} (links : List (List Char)) (hne : ws ≠ [])
    (hws : ∀ c ∈ ws, c = ' ' ∨ c = '\t') :
    convertLineToMarkdown ws links =
      some (repeatStr [' ', ' '] (ws.length - 1) ++ ['-', ' ']) := by
  have h := @convertLine_split ws [] links hws (by simp) (by simp)
    (by simpa using hne)
  have hlen : ws.length > 0 := List.length_pos.mpr hne
  simpa [convertSyntax_nil, hlen] using h

lemma trimSpaceStr_allWS {ws : List Char} (hws : ∀ c ∈ ws, c = ' ' ∨ c = '\t') :
    trimSpaceStr ws = [] := by
  have hdw : ws.dropWhile isSpaceChar = [] := by
    rw [List.dropWhile_eq_nil_iff]
    intro x hx
    rcases hws x hx with h | h <;> simp [h, isSpaceChar]
  simp [trimSpaceStr, hdw]

/-- C10: a non-empty all-whitespace line converts to the non-empty bullet
`(N-1)*2 spaces ++ "- "`, and the loop (outside code-block state) emits that
bullet followed by a newline — whitespace-only lines are not dropped. -/
theorem C10_whitespace_lines :
    (∀ (ws : List Char) (links : List (List Char)),
        ws ≠ [] → (∀ c ∈ ws, c = ' ' ∨ c = '\t') →
        convertLineToMarkdown ws links =
          some (repeatStr [' ', ' '] (ws.length - 1) ++ ['-', ' ']) ∧
        repeatStr [' ', ' '] (ws.length - 1) ++ ['-', ' '] ≠ []) ∧
    (∀ (links : List (List Char)) (ls : List (List Char)) (lang : List Char)
        (content : List (List Char)) (ws : List Char),
        ws ≠ [] → (∀ c ∈ ws, c = ' ' ∨ c = '\t') →
        convertLoop links (ws :: ls) false lang content =
          (convertLoop links ls false lang content).map fun chunks =>
            (repeatStr [' ', ' '] (ws.length - 1) ++ ['-', ' ', '\n']) :: chunks) ∧
    ConvertToMarkdown ⟨"T".toList, ["a".toList, [' '], "b".toList], []⟩ =
      some "# T\n\na\n- \nb\n".toList := by
  refine ⟨?_, ?_, by decide⟩
  · intro ws links hne hws
    exact ⟨convertLine_allWS links hne hws, by simp⟩
  · intro links ls lang content ws hne hws
    have htrim := trimSpaceStr_allWS hws
    have hconv := convertLine_allWS links hne hws
    have hm : repeatStr [' ', ' '] (ws.length - 1) ++ ['-', ' '] ≠ ([] : List Char) := by
      simp
    rw [convertLoop, htrim]
    simp [hasPrefixStr, hconv, hm]

/-- Witness for C10 at the two-space line. -/
theorem C10_whitespace_lines_witness :
    (convertLineToMarkdown [' ', ' '] [] =
        some (repeatStr [' ', ' '] (([' ', ' '] : List Char).length - 1) ++ ['-', ' ']) ∧
      repeatStr [' ', ' '] (([' ', ' '] : List Char).length - 1) ++ ['-', ' '] ≠ []) ∧
    convertLoop [] ([' ', ' '] :: [["b".toList.head!]]) false [] [] =
      (convertLoop [] [["b".toList.head!]] false [] []).map fun chunks =>
        (repeatStr [' ', ' '] (([' ', ' '] : List Char).length - 1) ++ ['-', ' ', '\n']) ::
          chunks :=
  ⟨C10_whitespace_lines.1 [' ', ' '] [] (by decide) (by decide),
    C10_whitespace_lines.2.1 [] [["b".toList.head!]] [] [] [' ', ' '] (by decide)
      (by decide)⟩

/-!
## C3: code-block entry
-/

lemma codePrefix_not_tag {t : List Char} (h : hasPrefixStr t "code:".toList = true) :
    hasPrefixStr t ['#'] = false := by
  cases t with
  | nil => exact absurd h (by decide)
  | cons c cs =>
    have hlit : ("code:".toList : List Char) = 'c' :: "ode:".toList := rfl
    rw [hlit] at h
    simp [hasPrefixStr] at h
    obtain ⟨hc, -⟩ := h
    subst hc
    simp [hasPrefixStr, hasPrefixStr_nil_right]

/-- C3: a line whose trimmed text starts with `code:` flips the loop into
code-block state without emitting anything, and the language becomes
`TrimSpace(TrimPrefix(raw text, "code:"))` — note the prefix is trimmed from
the raw, untrimmed line text; the concrete example
`["code:test.js", " console.log('hi')"]` yields one fenced `test.js`
block. -/
theorem C3_code_block_entry :
    (∀ (links : List (List Char)) (ls : List (List Char)) (cb : Bool)
        (lang : List Char) (content : List (List Char)) (l : List Char),
        hasPrefixStr (trimSpaceStr l) "code:".toList = true →
        convertLoop links (l :: ls) cb lang content =
          convertLoop links ls true
            (trimSpaceStr (trimPrefixStr l "code:".toList)) content) ∧
    ConvertToMarkdown ⟨"T".toList, ["code:test.js".toList,
        ' ' :: ("console.log(".toList ++ apos :: "hi".toList ++ [apos, ')'])], []⟩ =
      some ("# T\n\n```test.js\nconsole.log(".toList ++ apos :: "hi".toList ++
        [apos, ')'] ++ "\n```\n".toList) := by
  constructor
  · intro links ls cb lang content l h
    have h' : hasPrefixStr (trimSpaceStr l) ['c', 'o', 'd', 'e', ':'] = true := h
    rw [convertLoop, codePrefix_not_tag h]
    simp [h']
  · decide

/-- Witness for C3 on the line `code:js`. -/
theorem C3_code_block_entry_witness :
    convertLoop [] ("code:js".toList :: [['x']]) false [] [] =
      convertLoop [] [['x']] true
        (trimSpaceStr (trimPrefixStr "code:js".toList "code:".toList)) [] :=
  C3_code_block_entry.1 [] [['x']] false [] [] "code:js".toList (by decide)

/-- C3 counterexample: an indented `  code:js` line enters code-block state,
but `TrimPrefix` does not strip `code:` from the raw text, so the language
tag becomes `code:js`, not `js` as the claim predicts. -/
theorem C3_counterexample :
    ConvertToMarkdown ⟨"T".toList, [" code:js".toList, " x".toList, ['y']], []⟩ =
      some "# T\n\n```code:js\nx\n```\ny\n".toList ∧
    ¬ ConvertToMarkdown ⟨"T".toList, [" code:js".toList, " x".toList, ['y']], []⟩ =
      some "# T\n\n```js\nx\n```\ny\n".toList := by
  exact ⟨by decide, by decide⟩

/-!
## C4: code-block body and exit
-/

/-- C4 counterexample: inside a code block, the space-led line `" #x"` is
dropped by the tag filter (which runs before the code-block handling) instead
of being appended to the buffer, so no fenced block is produced at all —
refuting "every line beginning with a space or tab … is appended to the
buffer". -/
theorem C4_counterexample :
    ConvertToMarkdown ⟨"T".toList, ["code:js".toList, [' ', '#', 'x']], []⟩ =
      some "# T\n\n".toList ∧
    ¬ ConvertToMarkdown ⟨"T".toList, ["code:js".toList, [' ', '#', 'x']], []⟩ =
      some "# T\n\n```js\n#x\n```\n".toList := by
  exact ⟨by decide, by decide⟩

/-- C4 (amended): in code-block state, (i) a space/tab-led line that is not a
tag line and not a `code:` line is stripped of its leading whitespace and
appended to the buffer; (ii) a tag line is skipped entirely (it neither ends
the block nor is buffered); (iii) a `code:` line re-enters code-block entry,
resetting the language and keeping the buffer; (iv) any other line without
leading space/tab ends the block — the fenced block is emitted and the line
is re-processed as a normal line from clean state; (v) at end of input an
open block with a non-empty buffer is flushed. -/
theorem C4_code_block_body :
    (∀ (links : List (List Char)) (ls : List (List Char)) (lang : List Char)
        (content : List (List Char)) (l : List Char),
        (hasPrefixStr l [' '] = true ∨ hasPrefixStr l ['\t'] = true) →
        hasPrefixStr (trimSpaceStr l) ['#'] = false →
        hasPrefixStr (trimSpaceStr l) "code:".toList = false →
        convertLoop links (l :: ls) true lang content =
          convertLoop links ls true lang (content ++ [trimLeftStr [' ', '\t'] l])) ∧
    (∀ (links : List (List Char)) (ls : List (List Char)) (lang : List Char)
        (content : List (List Char)) (l : List Char),
        hasPrefixStr (trimSpaceStr l) ['#'] = true →
        convertLoop links (l :: ls) true lang content =
          convertLoop links ls true lang content) ∧
    (∀ (links : List (List Char)) (ls : List (List Char)) (lang : List Char)
        (content : List (List Char)) (l : List Char),
        hasPrefixStr (trimSpaceStr l) "code:".toList = true →
        convertLoop links (l :: ls) true lang content =
          convertLoop links ls true
            (trimSpaceStr (trimPrefixStr l "code:".toList)) content) ∧
    (∀ (links : List (List Char)) (ls : List (List Char)) (lang : List Char)
        (content : List (List Char)) (l : List Char),
        hasPrefixStr l [' '] = false → hasPrefixStr l ['\t'] = false →
        hasPrefixStr (trimSpaceStr l) ['#'] = false →
        hasPrefixStr (trimSpaceStr l) "code:".toList = false →
        convertLoop links (l :: ls) true lang content =
          (convertLoop links (l :: ls) false [] []).map fun chunks =>
            fenceBlock lang content :: chunks) ∧
    (∀ (links : List (List Char)) (lang : List Char) (content : List (List Char)),
        content ≠ [] →
        convertLoop links [] true lang content = some [fenceBlock lang content]) := by
  refine ⟨?_, ?_, ?_, ?_, ?_⟩
  · intro links ls lang content l hws htag hcode
    have hcode' : hasPrefixStr (trimSpaceStr l) ['c', 'o', 'd', 'e', ':'] = false := hcode
    simp only [convertLoop]
    simp [hws, htag, hcode']
  · intro links ls lang content l htag
    simp only [convertLoop]
    simp [htag]
  · intro links ls lang content l hcode
    have hcode' : hasPrefixStr (trimSpaceStr l) ['c', 'o', 'd', 'e', ':'] = true := hcode
    rw [convertLoop, codePrefix_not_tag hcode]
    simp [hcode']
  · intro links ls lang content l hw1 hw2 htag hcode
    have hcode' : hasPrefixStr (trimSpaceStr l) ['c', 'o', 'd', 'e', ':'] = false := hcode
    simp only [convertLoop]
    simp [htag, hcode', hw1, hw2]
    rcases hc : convertLineToMarkdown l links with _ | m
    · simp [hc]
    · simp [hc, Option.map_map]
      rfl
  · intro links lang content hcontent
    simp [convertLoop, hcontent]

/-- Witness for C4: each of the five cases at a concrete input. -/
theorem C4_code_block_body_witness :
    (convertLoop [] ([' ', 'a'] :: []) true [] [] =
      convertLoop [] [] true [] ([] ++ [trimLeftStr [' ', '\t'] [' ', 'a']])) ∧
    (convertLoop [] (['#', 'x'] :: []) true ['j'] [['a']] =
      convertLoop [] [] true ['j'] [['a']]) ∧
    (convertLoop [] ("code:js".toList :: []) true ['j'] [['a']] =
      convertLoop [] [] true
        (trimSpaceStr (trimPrefixStr "code:js".toList "code:".toList)) [['a']]) ∧
    (convertLoop [] (['y'] :: []) true ['j'] [['a']] =
      (convertLoop [] (['y'] :: []) false [] []).map fun chunks =>
        fenceBlock ['j'] [['a']] :: chunks) ∧
    (convertLoop [] [] true ['j'] [['a']] = some [fenceBlock ['j'] [['a']]]) :=
  ⟨C4_code_block_body.1 [] [] [] [] [' ', 'a'] (by decide) (by decide) (by decide),
    C4_code_block_body.2.1 [] [] ['j'] [['a']] ['#', 'x'] (by decide),
    C4_code_block_body.2.2.1 [] [] ['j'] [['a']] "code:js".toList (by decide),
    C4_code_block_body.2.2.2.1 [] [] ['j'] [['a']] ['y'] (by decide) (by decide)
      (by decide) (by decide),
    C4_code_block_body.2.2.2.2 [] ['j'] [['a']] (by decide)⟩

/-!
## C7: single-substitution inline styles
-/

/-- Generic first-span evaluation of `replaceEnclosed`: if the opener `P`
first occurs right after `pre` and the span's content `mid` contains no `]`,
the span is rewritten and everything after the closing `]` — including any
further spans — is kept verbatim. -/
lemma replaceEnclosed_first (pre P mid post mdP mdS : List Char)
    (hPnb : ']' ∉ P) (hmid : ']' ∉ mid)
    (hk : hasPrefixStr ((pre ++ (P ++ (mid ++ ']' :: post))).drop pre.length) P = true)
    (hfirst : ∀ j, j < pre.length →
      hasPrefixStr ((pre ++ (P ++ (mid ++ ']' :: post))).drop j) P = false) :
    replaceEnclosed (pre ++ (P ++ (mid ++ ']' :: post))) P [']'] mdP mdS =
      pre ++ mdP ++
        (if P = "[$ ".toList then collapseDoubleBackslash mid else mid) ++ mdS ++ post := by
  have hidx1 : indexStr (pre ++ (P ++ (mid ++ ']' :: post))) P = some pre.length :=
    indexStr_of_first hk hfirst
  have hdrop1 : (pre ++ (P ++ (mid ++ ']' :: post))).drop pre.length =
      P ++ (mid ++ ']' :: post) := List.drop_left _ _
  have hnb : ']' ∉ P ++ mid := by
    intro hmem
    rcases List.mem_append.mp hmem with h | h
    · exact hPnb h
    · exact hmid h
  have hidx2 : indexStr (P ++ (mid ++ ']' :: post)) [']'] =
      some (P.length + mid.length) := by
    have h := @indexStr_single_notMem ']' (P ++ mid) post hnb
    simpa [List.append_assoc] using h
  have htake1 : (pre ++ (P ++ (mid ++ ']' :: post))).take pre.length = pre :=
    List.take_left _ _
  have hcontent :
      ((pre ++ (P ++ (mid ++ ']' :: post))).take (P.length + mid.length + pre.length)).drop
        (pre.length + P.length) = mid := by
    have h1 : P.length + mid.length + pre.length = pre.length + (P.length + mid.length) := by
      omega
    rw [h1, List.take_append]
    have h2 : (P ++ (mid ++ ']' :: post)).take (P.length + mid.length) = P ++ mid := by
      rw [List.take_append]
      congr 1
      exact List.take_left _ _
    rw [h2, List.drop_append]
    exact List.drop_left _ _
  have hdropEnd :
      (pre ++ (P ++ (mid ++ ']' :: post))).drop (P.length + mid.length + pre.length + 1) =
        post := by
    have h1 : P.length + mid.length + pre.length + 1 =
        pre.length + (P.length + (mid.length + 1)) := by omega
    rw [h1, List.drop_append, List.drop_append]
    rw [@List.drop_append Char mid (']' :: post) 1]
    rfl
  simp only [replaceEnclosed, hidx1, hdrop1, hidx2, htake1, hcontent, hdropEnd]

/-- C7: each of strikethrough, bold, italic and math replaces only the first
occurrence of its span — the text after the closing `]` (which may contain
further spans, as in the closed two-bold-span instance) is kept verbatim —
and in the math case doubled backslashes in the captured content are
collapsed to single backslashes. -/
theorem C7_single_substitution :
    (∀ pre mid post : List Char, ']' ∉ mid →
      (∀ j, j < pre.length →
        hasPrefixStr ((pre ++ ("[- ".toList ++ (mid ++ ']' :: post))).drop j)
          "[- ".toList = false) →
      replaceEnclosed (pre ++ ("[- ".toList ++ (mid ++ ']' :: post))) "[- ".toList [']']
        "~~".toList "~~".toList = pre ++ "~~".toList ++ mid ++ "~~".toList ++ post) ∧
    (∀ pre mid post : List Char, ']' ∉ mid →
      (∀ j, j < pre.length →
        hasPrefixStr ((pre ++ ("[* ".toList ++ (mid ++ ']' :: post))).drop j)
          "[* ".toList = false) →
      replaceEnclosed (pre ++ ("[* ".toList ++ (mid ++ ']' :: post))) "[* ".toList [']']
        "**".toList "**".toList = pre ++ "**".toList ++ mid ++ "**".toList ++ post) ∧
    (∀ pre mid post : List Char, ']' ∉ mid →
      (∀ j, j < pre.length →
        hasPrefixStr ((pre ++ ("[/ ".toList ++ (mid ++ ']' :: post))).drop j)
          "[/ ".toList = false) →
      replaceEnclosed (pre ++ ("[/ ".toList ++ (mid ++ ']' :: post))) "[/ ".toList [']']
        ['_'] ['_'] = pre ++ ['_'] ++ mid ++ ['_'] ++ post) ∧
    (∀ pre mid post : List Char, ']' ∉ mid →
      (∀ j, j < pre.length →
        hasPrefixStr ((pre ++ ("[$ ".toList ++ (mid ++ ']' :: post))).drop j)
          "[$ ".toList = false) →
      replaceEnclosed (pre ++ ("[$ ".toList ++ (mid ++ ']' :: post))) "[$ ".toList [']']
        ['$'] ['$'] = pre ++ ['$'] ++ collapseDoubleBackslash mid ++ ['$'] ++ post) ∧
    convertSyntax "[* a] [* b]".toList [] = some "**a** [* b]".toList ∧
    convertSyntax "[$ a\\\\b]".toList [] = some "$a\\b$".toList := by
  refine ⟨?_, ?_, ?_, ?_, by decide, by decide⟩
  · intro pre mid post hmid hfirst
    have h := replaceEnclosed_first pre "[- ".toList mid post "~~".toList "~~".toList
      (by decide) hmid (by rw [List.drop_left]; exact hasPrefixStr_append_self _ _) hfirst
    simpa using h
  · intro pre mid post hmid hfirst
    have h := replaceEnclosed_first pre "[* ".toList mid post "**".toList "**".toList
      (by decide) hmid (by rw [List.drop_left]; exact hasPrefixStr_append_self _ _) hfirst
    simpa using h
  · intro pre mid post hmid hfirst
    have h := replaceEnclosed_first pre "[/ ".toList mid post ['_'] ['_']
      (by decide) hmid (by rw [List.drop_left]; exact hasPrefixStr_append_self _ _) hfirst
    simpa using h
  · intro pre mid post hmid hfirst
    have h := replaceEnclosed_first pre "[$ ".toList mid post ['$'] ['$']
      (by decide) hmid (by rw [List.drop_left]; exact hasPrefixStr_append_self _ _) hfirst
    simpa using h

/-- Witness for C7: strikethrough with a second span after it, and math with
a doubled backslash as content. -/
theorem C7_single_substitution_witness :
    replaceEnclosed (['x'] ++ ("[- ".toList ++ (['a'] ++ ']' :: " [- b]".toList)))
      "[- ".toList [']'] "~~".toList "~~".toList =
      ['x'] ++ "~~".toList ++ ['a'] ++ "~~".toList ++ " [- b]".toList ∧
    replaceEnclosed ([] ++ ("[$ ".toList ++ (['\\', '\\'] ++ ']' :: [])))
      "[$ ".toList [']'] ['$'] ['$'] =
      [] ++ ['$'] ++ collapseDoubleBackslash ['\\', '\\'] ++ ['$'] ++ [] :=
  ⟨C7_single_substitution.1 ['x'] ['a'] " [- b]".toList (by decide) (by decide),
    C7_single_substitution.2.2.2.1 [] ['\\', '\\'] [] (by decide) (by decide)⟩

/-!
## C5: page-link resolution
-/

/-- Evaluation of `convertPageLinks` when the first `[` of the text opens a
non-reserved bracketed span closed by `]`. -/
lemma convertPageLinks_eval (pre mid post : List Char) (links : List (List Char))
    (hpre : '[' ∉ pre) (hmid : ']' ∉ mid)
    (h1 : hasPrefixStr ('[' :: (mid ++ ']' :: post)) "[- ".toList = false)
    (h2 : hasPrefixStr ('[' :: (mid ++ ']' :: post)) "[* ".toList = false)
    (h3 : hasPrefixStr ('[' :: (mid ++ ']' :: post)) "[$ ".toList = false)
    (h4 : hasPrefixStr ('[' :: (mid ++ ']' :: post)) "[**".toList = false)
    (h5 : hasPrefixStr ('[' :: (mid ++ ']' :: post)) "[/ ".toList = false) :
    convertPageLinks (pre ++ '[' :: (mid ++ ']' :: post)) links =
      match links.find? (fun t => equalFold t (linkNorm mid)) with
      | some link => pre ++ ('[' :: mid) ++ "](./".toList ++ link ++ ".md)".toList ++ post
      | none => pre ++ '[' :: (mid ++ ']' :: post) := by
  have hidx1 : indexStr (pre ++ '[' :: (mid ++ ']' :: post)) ['['] = some pre.length :=
    indexStr_single_notMem hpre
  have hdrop1 : (pre ++ '[' :: (mid ++ ']' :: post)).drop pre.length =
      '[' :: (mid ++ ']' :: post) := List.drop_left _ _
  have hnb : ']' ∉ '[' :: mid := by
    intro hm
    rcases List.mem_cons.mp hm with h | h
    · exact absurd h (by decide)
    · exact hmid h
  have hidx2 : indexStr ('[' :: (mid ++ ']' :: post)) [']'] = some (mid.length + 1) := by
    have h := @indexStr_single_notMem ']' ('[' :: mid) post hnb
    simpa using h
  have htake : ((pre ++ '[' :: (mid ++ ']' :: post)).take
      (mid.length + 1 + pre.length)).drop (pre.length + 1) = mid := by
    have e1 : mid.length + 1 + pre.length = pre.length + (mid.length + 1) := by omega
    rw [e1, List.take_append]
    have e2 : ('[' :: (mid ++ ']' :: post)).take (mid.length + 1) = '[' :: mid := by
      rw [List.take_succ_cons]
      congr 1
      exact List.take_left _ _
    rw [e2, List.drop_append]
    rfl
  have htake0 : (pre ++ '[' :: (mid ++ ']' :: post)).take pre.length = pre :=
    List.take_left _ _
  have hdropEnd : (pre ++ '[' :: (mid ++ ']' :: post)).drop
      (mid.length + 1 + pre.length + 1) = post := by
    have e1 : mid.length + 1 + pre.length + 1 = pre.length + (mid.length + 1 + 1) := by
      omega
    rw [e1, List.drop_append, List.drop_succ_cons]
    rw [@List.drop_append Char mid (']' :: post) 1]
    rfl
  simp only [convertPageLinks, hidx1, hdrop1, h1, h2, h3, h4, h5, hidx2, htake, htake0,
    hdropEnd, linkNorm, Bool.false_eq_true, if_false, or_self, or_false, false_or]
  cases hf : links.find? (fun t => equalFold t (toLowerStr (replaceSpaceUnderscore mid))) with
  | none => simp [hf]
  | some link => simp [hf, List.append_assoc]

/-- C5 (amended): only the first `[` of the line is examined.  If it opens a
non-reserved bracketed span, the span's text is normalized (lower-case,
spaces→underscores) and matched case-insensitively against the link targets:
the first match rewrites the span to `[<title>](./<target>.md)`, no match
leaves the text unchanged.  If the first `[` is immediately followed by a
reserved opener, no page-link conversion is attempted at all — a later
non-reserved bracket is not considered. -/
theorem C5_page_link_resolution :
    (∀ (pre mid post link : List Char) (links : List (List Char)),
        '[' ∉ pre → ']' ∉ mid →
        hasPrefixStr ('[' :: (mid ++ ']' :: post)) "[- ".toList = false →
        hasPrefixStr ('[' :: (mid ++ ']' :: post)) "[* ".toList = false →
        hasPrefixStr ('[' :: (mid ++ ']' :: post)) "[$ ".toList = false →
        hasPrefixStr ('[' :: (mid ++ ']' :: post)) "[**".toList = false →
        hasPrefixStr ('[' :: (mid ++ ']' :: post)) "[/ ".toList = false →
        links.find? (fun t => equalFold t (linkNorm mid)) = some link →
        convertPageLinks (pre ++ '[' :: (mid ++ ']' :: post)) links =
          pre ++ ('[' :: mid) ++ "](./".toList ++ link ++ ".md)".toList ++ post) ∧
    (∀ (pre mid post : List Char) (links : List (List Char)),
        '[' ∉ pre → ']' ∉ mid →
        hasPrefixStr ('[' :: (mid ++ ']' :: post)) "[- ".toList = false →
        hasPrefixStr ('[' :: (mid ++ ']' :: post)) "[* ".toList = false →
        hasPrefixStr ('[' :: (mid ++ ']' :: post)) "[$ ".toList = false →
        hasPrefixStr ('[' :: (mid ++ ']' :: post)) "[**".toList = false →
        hasPrefixStr ('[' :: (mid ++ ']' :: post)) "[/ ".toList = false →
        links.find? (fun t => equalFold t (linkNorm mid)) = none →
        convertPageLinks (pre ++ '[' :: (mid ++ ']' :: post)) links =
          pre ++ '[' :: (mid ++ ']' :: post)) ∧
    (∀ (pre rest : List Char) (links : List (List Char)),
        '[' ∉ pre →
        (hasPrefixStr ('[' :: rest) "[- ".toList = true ∨
          hasPrefixStr ('[' :: rest) "[* ".toList = true ∨
          hasPrefixStr ('[' :: rest) "[$ ".toList = true ∨
          hasPrefixStr ('[' :: rest) "[**".toList = true ∨
          hasPrefixStr ('[' :: rest) "[/ ".toList = true) →
        convertPageLinks (pre ++ '[' :: rest) links = pre ++ '[' :: rest) ∧
    convertPageLinks "[Another Page]".toList ["another_page".toList] =
      "[Another Page](./another_page.md)".toList ∧
    convertPageLinks "[Unknown Page]".toList [] = "[Unknown Page]".toList := by
  refine ⟨?_, ?_, ?_, by decide, by decide⟩
  · intro pre mid post link links hpre hmid h1 h2 h3 h4 h5 hf
    have h := convertPageLinks_eval pre mid post links hpre hmid h1 h2 h3 h4 h5
    rw [hf] at h
    exact h
  · intro pre mid post links hpre hmid h1 h2 h3 h4 h5 hf
    have h := convertPageLinks_eval pre mid post links hpre hmid h1 h2 h3 h4 h5
    rw [hf] at h
    exact h
  · intro pre rest links hpre hres
    have hidx1 : indexStr (pre ++ '[' :: rest) ['['] = some pre.length :=
      indexStr_single_notMem hpre
    have hdrop1 : (pre ++ '[' :: rest).drop pre.length = '[' :: rest :=
      List.drop_left _ _
    simp only [convertPageLinks, hidx1, hdrop1]
    rcases hres with h | h | h | h | h
    · have h' : hasPrefixStr ('[' :: rest) ['[', '-', ' '] = true := h
      simp [h']
    · have h' : hasPrefixStr ('[' :: rest) ['[', '*', ' '] = true := h
      simp [h']
    · have h' : hasPrefixStr ('[' :: rest) ['[', '$', ' '] = true := h
      simp [h']
    · have h' : hasPrefixStr ('[' :: rest) ['[', '*', '*'] = true := h
      simp [h']
    · have h' : hasPrefixStr ('[' :: rest) ['[', '/', ' '] = true := h
      simp [h']

/-- Witness for C5: resolution, no-match, and reserved-first-bracket cases at
concrete inputs. -/
theorem C5_page_link_resolution_witness :
    convertPageLinks (['x', ' '] ++ '[' :: ("Another Page".toList ++ ']' :: ['!']))
        ["another_page".toList] =
      ['x', ' '] ++ ('[' :: "Another Page".toList) ++ "](./".toList ++
        "another_page".toList ++ ".md)".toList ++ ['!'] ∧
    convertPageLinks ([] ++ '[' :: ("Unknown Page".toList ++ ']' :: [])) [] =
      [] ++ '[' :: ("Unknown Page".toList ++ ']' :: []) ∧
    convertPageLinks (['x'] ++ '[' :: "- a] [x]".toList) [['x']] =
      ['x'] ++ '[' :: "- a] [x]".toList :=
  ⟨C5_page_link_resolution.1 ['x', ' '] "Another Page".toList ['!']
      "another_page".toList ["another_page".toList] (by decide) (by decide) (by decide)
      (by decide) (by decide) (by decide) (by decide) (by decide),
    C5_page_link_resolution.2.1 [] "Unknown Page".toList [] [] (by decide) (by decide)
      (by decide) (by decide) (by decide) (by decide) (by decide) (by decide),
    C5_page_link_resolution.2.2.1 ['x'] "- a] [x]".toList [['x']] (by decide)
      (Or.inl (by decide))⟩

/-- C5 counterexample: in `[- a] [- b] [x]` with link target `x`, after the
strikethrough pass the first remaining `[` opens the reserved span `[- b]`,
so the source bails out and the resolvable `[x]` is NOT converted — refuting
"the first `[` not immediately followed by a reserved opener is taken". -/
theorem C5_counterexample :
    convertPageLinks "[- b] [x]".toList [['x']] = "[- b] [x]".toList ∧
    convertSyntax "[- a] [- b] [x]".toList [['x']] =
      some "~~a~~ [- b] [x]".toList ∧
    ¬ convertSyntax "[- a] [- b] [x]".toList [['x']] =
      some "~~a~~ [- b] [x](./x.md)".toList := by
  exact ⟨by decide, by decide, by decide⟩

/-!
## C2: line accounting — non-emptiness of converted non-empty lines
-/

lemma replaceEnclosed_ne_nil (text P s mdP mdS : List Char)
    (htext : text ≠ []) (hmdP : mdP ≠ []) :
    replaceEnclosed text P s mdP mdS ≠ [] := by
  simp only [replaceEnclosed]
  split
  · exact htext
  · split
    · exact htext
    · simp [hmdP]

lemma convertPageLinks_ne_nil (text : List Char) (links : List (List Char))
    (htext : text ≠ []) : convertPageLinks text links ≠ [] := by
  simp only [convertPageLinks]
  split
  · exact htext
  · split
    · exact htext
    · split
      · exact htext
      · split
        · simp
        · exact htext

lemma convertExternalLinks_ne_nil (text : List Char) (htext : text ≠ []) :
    convertExternalLinks text ≠ [] := by
  simp only [convertExternalLinks]
  split
  · simp
  · exact htext

lemma convertSyntax_ne_nil {text : List Char} {links : List (List Char)} {m : List Char}
    (htext : text ≠ []) (h : convertSyntax text links = some m) : m ≠ [] := by
  simp only [convertSyntax] at h
  split at h
  · split at h
    · simp at h
    · injection h with h'
      subst h'
      simp
  · have t1ne : replaceEnclosed text "[- ".toList [']'] "~~".toList "~~".toList ≠ [] :=
      replaceEnclosed_ne_nil _ _ _ _ _ htext (by decide)
    have t2ne : replaceEnclosed
        (replaceEnclosed text "[- ".toList [']'] "~~".toList "~~".toList)
        "[* ".toList [']'] "**".toList "**".toList ≠ [] :=
      replaceEnclosed_ne_nil _ _ _ _ _ t1ne (by decide)
    have t3ne : replaceEnclosed
        (replaceEnclosed
          (replaceEnclosed text "[- ".toList [']'] "~~".toList "~~".toList)
          "[* ".toList [']'] "**".toList "**".toList)
        "[/ ".toList [']'] ['_'] ['_'] ≠ [] :=
      replaceEnclosed_ne_nil _ _ _ _ _ t2ne (by decide)
    have t4ne : replaceEnclosed
        (replaceEnclosed
          (replaceEnclosed
            (replaceEnclosed text "[- ".toList [']'] "~~".toList "~~".toList)
            "[* ".toList [']'] "**".toList "**".toList)
          "[/ ".toList [']'] ['_'] ['_'])
        "[$ ".toList [']'] ['$'] ['$'] ≠ [] :=
      replaceEnclosed_ne_nil _ _ _ _ _ t3ne (by decide)
    split at h
    · injection h with h'
      subst h'
      exact t4ne
    · injection h with h'
      subst h'
      exact convertExternalLinks_ne_nil _ (convertPageLinks_ne_nil _ links t4ne)

lemma convertLine_ne_nil {l : List Char} {links : List (List Char)} {m : List Char}
    (hl : l ≠ []) (h : convertLineToMarkdown l links = some m) : m ≠ [] := by
  simp only [convertLineToMarkdown, hl, if_false] at h
  split at h
  · simp at h
  · next t heq =>
    split at h
    · injection h with h'
      subst h'
      simp
    · next hp =>
      injection h with h'
      subst h'
      have hdw : trimLeftStr [' ', '\t'] l = l := by
        cases l with
        | nil => rfl
        | cons c cs =>
          have hpc : ((c = ' ' || c = '\t') : Bool) = false := by
            by_contra hb
            rw [Bool.not_eq_false] at hb
            apply hp
            simp [List.takeWhile_cons, hb]
          have hcc : ¬(c = ' ') ∧ ¬(c = '\t') := by simpa using hpc
          simp [trimLeftStr, List.dropWhile_cons, hcc.1, hcc.2]
      rw [hdw] at heq
      exact convertSyntax_ne_nil hl heq

lemma convertLine_nil (links : List (List Char)) :
    convertLineToMarkdown [] links = some [] := rfl

/-- The loop of `ConvertToMarkdown` emits exactly the chunk sequence
predicted by the amended claim (joint statement for the two loop states
reachable from the start state). -/
lemma convertLoop_eq_claim (links : List (List Char)) (ls : List (List Char)) :
    (∀ lang, convertLoop links ls false lang [] = claimChunksAux links ls none) ∧
    (∀ lang content, convertLoop links ls true lang content =
      claimChunksAux links ls (some ⟨lang, content⟩)) := by
  induction ls with
  | nil =>
    constructor
    · intro lang
      simp [convertLoop, claimChunksAux]
    · intro lang content
      by_cases hc : content = []
      · subst hc
        simp [convertLoop, claimChunksAux]
      · simp [convertLoop, claimChunksAux, hc]
  | cons l ls ih =>
    have htagcast : tagLineB l = hasPrefixStr (trimSpaceStr l) ['#'] := rfl
    have hcodecast : codeLineB l = hasPrefixStr (trimSpaceStr l) ['c', 'o', 'd', 'e', ':'] :=
      rfl
    constructor
    · intro lang
      simp only [convertLoop, claimChunksAux]
      by_cases ht : hasPrefixStr (trimSpaceStr l) ['#'] = true
      · simp [htagcast, ht, ih.1 lang]
      · by_cases hcode : hasPrefixStr (trimSpaceStr l) ['c', 'o', 'd', 'e', ':'] = true
        · simp [htagcast, ht, hcodecast, hcode, ih.2]
        · by_cases hl : l = []
          · subst hl
            rw [convertLine_nil]
            cases hrest : claimChunksAux links ls none with
            | none => simp [htagcast, hcodecast, ht, hcode, ih.1, hrest]
            | some rest => simp [htagcast, hcodecast, ht, hcode, ih.1, hrest]
          · rcases hm : convertLineToMarkdown l links with _ | m
            · simp [htagcast, hcodecast, ht, hcode, hm, hl]
            · have hmne : m ≠ [] := convertLine_ne_nil hl hm
              cases hrest : claimChunksAux links ls none with
              | none => simp [htagcast, hcodecast, ht, hcode, hm, hl, hmne, ih.1, hrest]
              | some rest =>
                simp [htagcast, hcodecast, ht, hcode, hm, hl, hmne, ih.1, hrest]
    · intro lang content
      simp only [convertLoop, claimChunksAux]
      by_cases ht : hasPrefixStr (trimSpaceStr l) ['#'] = true
      · simp [htagcast, ht, ih.2]
      · by_cases hcode : hasPrefixStr (trimSpaceStr l) ['c', 'o', 'd', 'e', ':'] = true
        · simp [htagcast, ht, hcodecast, hcode, ih.2]
        · by_cases hw : hasPrefixStr l [' '] = true ∨ hasPrefixStr l ['\t'] = true
          · have hwb : wsLeadB l = true := by
              rcases hw with h | h <;> simp [wsLeadB, h]
            simp [htagcast, ht, hcodecast, hcode, hw, hwb, ih.2]
          · have hwb : wsLeadB l = false := by
              cases hww : wsLeadB l
              · rfl
              · exact absurd (by simpa [wsLeadB] using hww) hw
            by_cases hl : l = []
            · subst hl
              rw [convertLine_nil]
              cases hrest : claimChunksAux links ls none with
              | none => simp [htagcast, hcodecast, ht, hcode, hw, hwb, ih.1, hrest]
              | some rest =>
                simp [htagcast, hcodecast, ht, hcode, hw, hwb, ih.1, hrest]
            · rcases hm : convertLineToMarkdown l links with _ | m
              · simp [htagcast, hcodecast, ht, hcode, hw, hwb, hm, hl]
              · have hmne : m ≠ [] := convertLine_ne_nil hl hm
                cases hrest : claimChunksAux links ls none with
                | none =>
                  simp [htagcast, hcodecast, ht, hcode, hw, hwb, hm, hl, hmne,
                    ih.1, hrest]
                | some rest =>
                  simp [htagcast, hcodecast, ht, hcode, hw, hwb, hm, hl, hmne,
                    ih.1, hrest]

/-- The number of chunks the loop emits matches the amended claim's count
(the second flag tracks non-emptiness of the code buffer). -/
lemma convertLoop_count (links : List (List Char)) (ls : List (List Char)) :
    ∀ (cb : Bool) (lang : List Char) (content : List (List Char)) (out : List (List Char)),
      convertLoop links ls cb lang content = some out →
      out.length = claimCount4Aux ls cb (!content.isEmpty) := by
  induction ls with
  | nil =>
    intro cb lang content out h
    simp only [convertLoop] at h
    injection h with h'
    subst h'
    cases cb
    · simp [claimCount4Aux]
    · cases content <;> simp [claimCount4Aux]
  | cons l ls ih =>
    intro cb lang content out h
    simp only [convertLoop] at h
    split at h
    · next htag =>
      have ht2 : tagLineB l = true := htag
      simp [claimCount4Aux, ht2, ih cb lang content out h]
    · next htag =>
      have ht2 : tagLineB l = false := Bool.eq_false_iff.mpr htag
      split at h
      · next hcode =>
        have hc2 : codeLineB l = true := hcode
        simp [claimCount4Aux, ht2, hc2, ih _ _ _ _ h]
      · next hcode =>
        have hc2 : codeLineB l = false := Bool.eq_false_iff.mpr hcode
        split at h
        · next hcb =>
          subst hcb
          split at h
          · next hws =>
            have hw2 : wsLeadB l = true := hws
            have hlen := ih true lang (content ++ [trimLeftStr [' ', '\t'] l]) out h
            have h3 : (!(content ++ [trimLeftStr [' ', '\t'] l]).isEmpty) = true := by simp
            rw [h3] at hlen
            simp [claimCount4Aux, ht2, hc2, hw2, hlen]
          · next hws =>
            have hw2 : wsLeadB l = false := Bool.eq_false_iff.mpr hws
            split at h
            · simp at h
            · next m hm =>
              rw [Option.map_eq_some'] at h
              rcases h with ⟨rest, hrest, hout⟩
              subst hout
              have hr := ih false [] [] rest hrest
              by_cases hl : l = []
              · subst hl
                have hm0 : m = [] := by
                  rw [convertLine_nil] at hm
                  injection hm with h'
                  exact h'.symm
                subst hm0
                simp [claimCount4Aux, ht2, hc2, hw2] at hr ⊢
                omega
              · have hmne : m ≠ [] := convertLine_ne_nil hl hm
                simp [claimCount4Aux, ht2, hc2, hw2, hl, hmne] at hr ⊢
                omega
        · next hcb =>
          have hcb2 : cb = false := by
            cases cb
            · rfl
            · exact absurd rfl hcb
          subst hcb2
          split at h
          · simp at h
          · next m hm =>
            rw [Option.map_eq_some'] at h
            rcases h with ⟨rest, hrest, hout⟩
            subst hout
            have hr := ih false lang content rest hrest
            by_cases hl : l = []
            · subst hl
              have hm0 : m = [] := by
                rw [convertLine_nil] at hm
                injection hm with h'
                exact h'.symm
              subst hm0
              simp [claimCount4Aux, ht2, hc2] at hr ⊢
              omega
            · have hmne : m ≠ [] := convertLine_ne_nil hl hm
              simp [claimCount4Aux, ht2, hc2, hl, hmne] at hr ⊢
              omega

/-- C2 counterexample: the claim's three-case accounting fails (i) on an
empty line — dropped by the source, but counted by the claim — and (ii) on a
document ending in a `code:` line with an empty buffer — the claim counts one
fenced block, the source emits nothing. -/
theorem C2_counterexample :
    (bodyChunks ⟨"T".toList, [['a'], [], ['b']], []⟩).map List.length ≠
      some (claimCount3 ⟨"T".toList, [['a'], [], ['b']], []⟩) ∧
    (bodyChunks ⟨"T".toList, ["code:js".toList], []⟩).map List.length ≠
      some (claimCount3 ⟨"T".toList, ["code:js".toList], []⟩) := by
  exact ⟨by decide, by decide⟩

/-- C2 (amended): the body writes of `ConvertToMarkdown` are exactly the
claim-side chunk sequence (title-dup first line dropped, tag lines dropped
even inside code runs, contiguous code runs collapsed into one fenced block —
except a run still open at end of input with an empty buffer, which emits
nothing — empty lines dropped, all other lines emitted in input order), and
their number equals the amended four-case count. -/
theorem C2_line_accounting (page : Page) :
    bodyChunks page = claimChunks page ∧
    ∀ out, bodyChunks page = some out → out.length = claimCount4 page := by
  constructor
  · exact (convertLoop_eq_claim page.linksLc (bodyLines page)).1 []
  · intro out h
    have hc := convertLoop_count page.linksLc (bodyLines page) false [] [] out h
    simpa [claimCount4] using hc

/-- Witness for C2 at a one-line body. -/
theorem C2_line_accounting_witness :
    bodyChunks ⟨"T".toList, [['a']], []⟩ = claimChunks ⟨"T".toList, [['a']], []⟩ ∧
    ([['a', '\n']] : List (List Char)).length = claimCount4 ⟨"T".toList, [['a']], []⟩ :=
  ⟨(C2_line_accounting ⟨"T".toList, [['a']], []⟩).1,
    (C2_line_accounting ⟨"T".toList, [['a']], []⟩).2 [['a', '\n']] (by decide)⟩
